import Mathlib

/-!
Shallow embedding of the interlock-generation core of the
CustomInterlockResearch repository (beam, linear-dovetail and 3D-dovetail
interlocks for split 3D prints), together with theorems checking the
natural-language specification against the code.

The arithmetic of the Python source is embedded over `ℚ` where it is purely
rational (layer quantization, pattern layout, beam placement) and over `ℝ`
where it calls `tan` (the dovetail taper solvers).  Python's `round` and
`np.round` round half to even; they are embedded as `bankersRound`.
-/

namespace CustomInterlock

/-- Global `NOZZLE_SIZE = 0.4` mm from the source (Prusa 0.15 mm preset). -/
def NOZZLE_SIZE : ℚ := 2/5

/-- Global `LAYER_HEIGHT = 0.15` mm from the source. -/
def LAYER_HEIGHT : ℚ := 3/20

/-- Round half to even: the rounding used by Python's `round` and numpy. -/
def bankersRound {α : Type} [LinearOrderedField α] [FloorRing α] (x : α) : ℤ :=
  if x - (⌊x⌋ : α) < 1/2 then ⌊x⌋
  else if (1 : α)/2 < x - (⌊x⌋ : α) then ⌊x⌋ + 1
  else if Even ⌊x⌋ then ⌊x⌋ else ⌊x⌋ + 1

/-- `round(x, d)` / `np.round(x, d)`: round to `d` decimal places. -/
def roundDec {α : Type} [LinearOrderedField α] [FloorRing α] (d : ℕ) (x : α) : α :=
  (bankersRound (x * 10 ^ d) : α) / 10 ^ d

/-- Vertical (Z) quantization count, from `add_beam_interlock_in_z` lines 40-47
(the same lines appear in `add_dovetail_interlock_in_z` and
`add_3d_dovetail_interlock`): `num = np.floor(E / P)` followed by the
tolerance test `np.ceil(num) - num < 0.25 ? np.ceil(num) : np.floor(num)`. -/
def quantCountZ (E P : ℚ) : ℤ :=
  let num : ℚ := (⌊E / P⌋ : ℤ)
  if (⌈num⌉ : ℚ) - num < 1/4 then ⌈num⌉ else ⌊num⌋

/-- Horizontal (Y) quantization count, from `add_beam_interlock_in_y`
lines 137-143: `num = E / P` followed by the same tolerance test. -/
def quantCountY (E P : ℚ) : ℤ :=
  let num : ℚ := E / P
  if (⌈num⌉ : ℚ) - num < 1/4 then ⌈num⌉ else ⌊num⌋

/-- `round_with_tolerance`, written from the specification's words (§4.2):
let `f = E/P`; if `ceil(f) - f < 0.25` round up to `ceil(f)`, else round
down to `floor(f)`.  Kept separate from the code embeddings `quantCountZ` /
`quantCountY` so that the two can be compared. -/
def specRoundWithTolerance (f : ℚ) : ℤ :=
  if (⌈f⌉ : ℚ) - f < 1/4 then ⌈f⌉ else ⌊f⌋

/-- Physical size of the quantized pattern, from source line 48 /
line 146: `np.round(count * P, 3)`. -/
def intPatternSize (count : ℤ) (P : ℚ) : ℚ :=
  roundDec 3 ((count : ℚ) * P)

/-- Center of the pattern, from source line 53 / 151:
`center = boundary_min + raw_extent / 2`. -/
def patternCenter (boundaryMin rawExtent : ℚ) : ℚ :=
  boundaryMin + rawExtent / 2

/-- Pattern start, from source line 54 / 152: `center - physical/2`. -/
def patternStart (center physical : ℚ) : ℚ := center - physical / 2

/-- Pattern end, from source line 55 / 153: `center + physical/2`. -/
def patternEnd (center physical : ℚ) : ℚ := center + physical / 2

/-- The beam-placement while loop from the source (lines 71-74 / 169-172):
`h = start; while h < e: append h; h += p`.  The loop only terminates for a
positive pitch, so the embedding returns `[]` for a non-positive pitch. -/
def stepPositions (p h e : ℚ) : List ℚ :=
  if hp : 0 < p then
    if hlt : h < e then
      h :: stepPositions p (h + p) e
    else []
  else []
termination_by (⌈(e - h) / p⌉).toNat
decreasing_by
  have hq : 0 < (e - h) / p := div_pos (by linarith) hp
  have hc : 0 < ⌈(e - h) / p⌉ := Int.ceil_pos.mpr hq
  have hstep : (e - (h + p)) / p = (e - h) / p - 1 := by
    field_simp
    ring
  have : ⌈(e - (h + p)) / p⌉ = ⌈(e - h) / p⌉ - 1 := by
    rw [hstep, Int.ceil_sub_one]
  rw [this]
  exact (Int.toNat_lt_toNat hc).mpr (by omega)

/-- `np.arange(start, stop, step)` for a positive real step: the values
`start + k*step` for `0 ≤ k < ⌈(stop - start)/step⌉`. -/
def arange {α : Type} [LinearOrderedField α] [FloorRing α]
    (start stop step : α) : List α :=
  (List.range (⌈(stop - start) / step⌉).toNat).map fun (k : ℕ) => start + (k : α) * step

/-- The beam placement plan of `add_beam_interlock_in_z`, composed as in the
source: quantize the available extent `E` at pitch `P`, center the physical
size on the cut-face center `c`, then collect positions with the while
loop. -/
def beamPlanZ (E P c : ℚ) : List ℚ :=
  stepPositions P (patternStart c (intPatternSize (quantCountZ E P) P))
    (patternEnd c (intPatternSize (quantCountZ E P) P))

/-- A point in 3-space (X = split axis, Y = width, Z = height). -/
abbrev Point : Type := ℚ × ℚ × ℚ

/-- `apply_translation([0, 0, h])`. -/
def translateZ (h : ℚ) (p : Point) : Point := (p.1, p.2.1, p.2.2 + h)

/-- `apply_translation(t)` with a full vector. -/
def translateBy (t p : Point) : Point := (p.1 + t.1, p.2.1 + t.2.1, p.2.2 + t.2.2)

/-- `trimesh.transformations.rotation_matrix(-np.pi, [0, 0, 1], c)` applied
to a point: a 180° rotation about the vertical axis `[0, 0, 1]` through `c`,
which mirrors X and Y across `c` and keeps Z. -/
def rotZ180About (c p : Point) : Point := (2 * c.1 - p.1, 2 * c.2.1 - p.2.1, p.2.2)

/-- Written from the specification's words (§4.6): a 180° rotation about the
split axis X through `c`, which mirrors Y and Z across `c` and keeps X.
Kept separate from `rotZ180About` so the two can be compared. -/
def specRotX180About (c p : Point) : Point := (p.1, 2 * c.2.1 - p.2.1, 2 * c.2.2 - p.2.2)

/-- Which half receives the protruding feature at a step. -/
inductive Role : Type
  | Left : Role
  | Right : Role
deriving DecidableEq

/-- One assembly step: the rigid transform applied to the primitive copy and
whether each half receives a union (`true`) or a difference (`false`). -/
structure AsmStep : Type where
  transform : Point → Point
  leftUnion : Bool
  rightUnion : Bool

instance : Inhabited AsmStep := ⟨⟨id, true, true⟩⟩

/-- The half that receives the union (the protrusion) at this step. -/
def AsmStep.role (s : AsmStep) : Role :=
  if s.leftUnion then Role.Left else Role.Right

/-- The body of the dovetail assembly loop (`add_dovetail_interlock_in_z`
lines 139-167 and `add_3d_dovetail_interlock` lines 117-145, identical in
both): at even `i` the copy is translated by `[0, 0, h]`, unioned into the
left half and subtracted from the right; at odd `i` it is translated by
`[0, 0, h]`, rotated 180° about `[0, 0, 1]` through its own centroid (the
centroid of the translated copy), subtracted from the left half and unioned
into the right.  `c₀` is the primitive's centroid before the translation. -/
def dovetailStep (c₀ : Point) (i : ℕ) (h : ℚ) : AsmStep :=
  if i % 2 = 0 then
    { transform := fun p => translateZ h p
      leftUnion := true
      rightUnion := false }
  else
    { transform := fun p => rotZ180About (translateZ h c₀) (translateZ h p)
      leftUnion := false
      rightUnion := true }

/-- The dovetail assembly loop over the enumerated placement plan. -/
def assemblePlan (c₀ : Point) (plan : List ℚ) : List AsmStep :=
  plan.enum.map fun ih => dovetailStep c₀ ih.1 ih.2

/-- Symbolic mesh state of one half: the input mesh followed by the boolean
operations applied to it (union/difference with the `i`-th primitive). -/
inductive MeshExpr : Type
  | input : MeshExpr
  | union : MeshExpr → ℕ → MeshExpr
  | diff : MeshExpr → ℕ → MeshExpr
deriving DecidableEq

/-- The left/right mesh states after the beam assembly loop of
`add_beam_interlock_in_z` (lines 80-95): even index — union into the left
half, difference from the right; odd index — difference from the left,
union into the right. -/
def beamBooleanFold (plan : List ℚ) : MeshExpr × MeshExpr :=
  plan.enum.foldl
    (fun lr ih =>
      if ih.1 % 2 = 0 then (MeshExpr.union lr.1 ih.1, MeshExpr.diff lr.2 ih.1)
      else (MeshExpr.diff lr.1 ih.1, MeshExpr.union lr.2 ih.1))
    (MeshExpr.input, MeshExpr.input)

/-- Beam translation target in the Z variant (`add_beam_interlock_in_z`
lines 84-91): even index `[plane_x + d/2, min_int_y + w/2, h]`, odd index
`[plane_x - d/2, min_int_y + w/2, h]`. -/
def beamTargetZ (plane_x beam_d min_int_y beam_w : ℚ) (i : ℕ) (h : ℚ) : Point :=
  if i % 2 = 0 then (plane_x + beam_d / 2, min_int_y + beam_w / 2, h)
  else (plane_x - beam_d / 2, min_int_y + beam_w / 2, h)

/-- Beam translation target in the Y variant (`add_beam_interlock_in_y`
lines 182-189): even index `[plane_x + d/2, w, min_int_z + h/2]`, odd index
`[plane_x - d/2, w, min_int_z + h/2]`. -/
def beamTargetY (plane_x beam_d min_int_z beam_h : ℚ) (i : ℕ) (w : ℚ) : Point :=
  if i % 2 = 0 then (plane_x + beam_d / 2, w, min_int_z + beam_h / 2)
  else (plane_x - beam_d / 2, w, min_int_z + beam_h / 2)

/-- The rigid transform applied to the beam box at step `i` of the Z
variant: the box is created axis-aligned at the origin and the only
transform ever applied to it is `apply_translation` to the target. -/
def beamTransformZ (plane_x beam_d min_int_y beam_w : ℚ) (i : ℕ) (h : ℚ) :
    Point → Point :=
  translateBy (beamTargetZ plane_x beam_d min_int_y beam_w i h)

/-- The rigid transform applied to the beam box at step `i` of the Y
variant. -/
def beamTransformY (plane_x beam_d min_int_z beam_h : ℚ) (i : ℕ) (w : ℚ) :
    Point → Point :=
  translateBy (beamTargetY plane_x beam_d min_int_z beam_h i w)

noncomputable section TaperSolvers

open Real

/-- The linear-dovetail taper snap factor, from `_create_dovetail_from_taper`
(`dovetail_interlock.py` lines 225-231): `angle = np.radians(θ)`,
`delta = S * np.tan(angle)`, `large = S + 2*delta`,
`factor = round(large / LAYER_HEIGHT)`.  There is no check on the sign of
the angle anywhere in the function. -/
noncomputable def dovetailLargeFactor (small_height taper_angle_deg : ℝ) : ℤ :=
  let angle := taper_angle_deg * π / 180
  let delta := small_height * Real.tan angle
  let large_height := small_height + 2 * delta
  bankersRound (large_height / (LAYER_HEIGHT : ℝ))

/-- The snapped large height returned by `_create_dovetail_from_taper`
(line 232): `round(factor * LAYER_HEIGHT, 2)`. -/
noncomputable def dovetailLargeHeight (small_height taper_angle_deg : ℝ) : ℝ :=
  roundDec 2 ((dovetailLargeFactor small_height taper_angle_deg : ℝ) * (LAYER_HEIGHT : ℝ))

/-- The 3D-dovetail large dimensions `(z_large_height, y_large_width)`, from
`_create_3D_dovetail_with_taper` (`dovetail_interlock_3D.py` lines 214-228).
The source computes `y_delta = z_small_height * np.tan(y_angle)` — from the
Z small height, not from `y_small_width`. -/
noncomputable def dovetail3DLargeDims
    (taper_angle_z_deg taper_angle_y_deg z_small_height y_small_width : ℝ) : ℝ × ℝ :=
  let z_angle := taper_angle_z_deg * π / 180
  let z_delta := z_small_height * Real.tan z_angle
  let y_angle := taper_angle_y_deg * π / 180
  let y_delta := z_small_height * Real.tan y_angle
  let z_large_height := z_small_height + 2 * z_delta
  let y_large_width := y_small_width + 2 * y_delta
  (roundDec 2 ((bankersRound (z_large_height / (LAYER_HEIGHT : ℝ)) : ℝ) * (LAYER_HEIGHT : ℝ)),
   roundDec 2 ((bankersRound (y_large_width / (LAYER_HEIGHT : ℝ)) : ℝ) * (LAYER_HEIGHT : ℝ)))

/-- Written from the specification's words (§4.4): the single-axis taper
contract — given a small dimension `S` and angle `θ` in degrees, compute
`delta = S * tan(θ)`, `large = S + 2*delta`, then snap `large` to the
nearest layer-height multiple (`round(large/layer_height) * layer_height`,
2 decimal places).  Kept separate from the code embeddings so that the two
can be compared. -/
noncomputable def specTaperLarge (S theta_deg : ℝ) : ℝ :=
  let delta := S * Real.tan (theta_deg * π / 180)
  let large := S + 2 * delta
  roundDec 2 ((bankersRound (large / (LAYER_HEIGHT : ℝ)) : ℝ) * (LAYER_HEIGHT : ℝ))

end TaperSolvers

/-- numpy `.min()` over a list; `none` on an empty array (numpy raises). -/
def listMin (l : List ℚ) : Option ℚ :=
  match l with
  | [] => none
  | x :: xs => some (xs.foldl min x)

/-- numpy `.max()` over a list; `none` on an empty array (numpy raises). -/
def listMax (l : List ℚ) : Option ℚ :=
  match l with
  | [] => none
  | x :: xs => some (xs.foldl max x)

/-- The `tolerance = 1e-5` of `get_split_face`. -/
def splitTol : ℚ := 1/100000

/-- `get_split_face` from `split_mesh.py` lines 49-81: the cut-plane
coordinate is the maximum vertex X (`mesh.bounds[1][0]`), the cut-face
vertices are those with X within `1e-5` of it, and the result is
`(cut_width, cut_height, (min_y, max_y, min_z, max_z))` over their Y/Z
projections.  numpy min/max raise on an empty selection; failure is `none`. -/
def get_split_face (verts : List Point) : Option (ℚ × ℚ × (ℚ × ℚ × ℚ × ℚ)) :=
  match listMax (verts.map (fun v => v.1)) with
  | none => none
  | some plane_x =>
    let onPlane := verts.filter (fun v => |v.1 - plane_x| < splitTol)
    match listMin (onPlane.map (fun v => v.2.1)), listMax (onPlane.map (fun v => v.2.1)),
          listMin (onPlane.map (fun v => v.2.2)), listMax (onPlane.map (fun v => v.2.2)) with
    | some min_y, some max_y, some min_z, some max_z =>
      some (max_y - min_y, max_z - min_z, (min_y, max_y, min_z, max_z))
    | _, _, _, _ => none

section RoundingLemmas

variable {α : Type} [LinearOrderedField α] [FloorRing α]

theorem bankersRound_intCast (m : ℤ) : bankersRound (m : α) = m := by
  unfold bankersRound
  rw [Int.floor_intCast]
  simp

theorem floor_add_one_le_ceil_of_half {x : α} (h : (1:α)/2 ≤ x - ⌊x⌋) :
    ⌊x⌋ + 1 ≤ ⌈x⌉ := by
  have hlt : (⌊x⌋ : α) < (⌈x⌉ : α) :=
    lt_of_lt_of_le (by linarith) (Int.le_ceil x)
  exact Int.add_one_le_iff.mpr (by exact_mod_cast hlt)

theorem bankersRound_le_ceil (x : α) : bankersRound x ≤ ⌈x⌉ := by
  unfold bankersRound
  have h1 : ⌊x⌋ ≤ ⌈x⌉ := Int.floor_le_ceil x
  split_ifs with h2 h3 h4
  · exact h1
  · exact floor_add_one_le_ceil_of_half (by linarith [not_lt.mp h2])
  · exact h1
  · exact floor_add_one_le_ceil_of_half (by linarith [not_lt.mp h2])

theorem floor_le_bankersRound (x : α) : ⌊x⌋ ≤ bankersRound x := by
  unfold bankersRound
  split_ifs <;> omega

theorem bankersRound_nonpos {x : α} (hx : x ≤ 0) : bankersRound x ≤ 0 :=
  le_trans (bankersRound_le_ceil x) (Int.ceil_le.mpr (by exact_mod_cast hx))

/-- When `x * 10^d` is an integer, rounding to `d` decimals is exact. -/
theorem roundDec_eq_self {d : ℕ} {x : α} (m : ℤ) (hm : x * 10 ^ d = (m : α)) :
    roundDec d x = x := by
  unfold roundDec
  rw [hm, bankersRound_intCast]
  rw [div_eq_iff (by positivity : (10:α) ^ d ≠ 0)]
  exact hm.symm

theorem roundDec_nonpos {d : ℕ} {x : α} (hx : x ≤ 0) : roundDec d x ≤ 0 := by
  unfold roundDec
  apply div_nonpos_of_nonpos_of_nonneg
  · exact_mod_cast bankersRound_nonpos
      (mul_nonpos_iff.mpr (Or.inr ⟨hx, by positivity⟩))
  · positivity

end RoundingLemmas

section QuantizationLemmas

/-- In the Z variant the tolerance test is applied to an already floored
number, so it is inert: the count is always `⌊E / P⌋`. -/
theorem quantCountZ_eq_floor (E P : ℚ) : quantCountZ E P = ⌊E / P⌋ := by
  unfold quantCountZ
  simp [Int.ceil_intCast, Int.floor_intCast]

/-- The Y variant is exactly the specification's `round_with_tolerance`
applied to `E / P`. -/
theorem quantCountY_eq_spec (E P : ℚ) :
    quantCountY E P = specRoundWithTolerance (E / P) := rfl

theorem quantCountY_nonneg {E P : ℚ} (hE : 0 < E) (hP : 0 < P) :
    0 ≤ quantCountY E P := by
  rw [quantCountY_eq_spec]
  unfold specRoundWithTolerance
  have hf : 0 < E / P := div_pos hE hP
  split_ifs
  · exact le_of_lt (Int.ceil_pos.mpr hf)
  · exact Int.floor_nonneg.mpr (le_of_lt hf)

theorem quantCountZ_nonneg {E P : ℚ} (hE : 0 < E) (hP : 0 < P) :
    0 ≤ quantCountZ E P := by
  rw [quantCountZ_eq_floor]
  exact Int.floor_nonneg.mpr (le_of_lt (div_pos hE hP))

/-- A pitch of the code's form `layers * LAYER_HEIGHT` makes
`count * P` exact at three decimals, so `intPatternSize` is exact. -/
theorem intPatternSize_exact (count : ℤ) (n : ℕ) :
    intPatternSize count ((n : ℚ) * LAYER_HEIGHT) = (count : ℚ) * ((n : ℚ) * LAYER_HEIGHT) := by
  unfold intPatternSize
  apply roundDec_eq_self (count * n * 150)
  push_cast [LAYER_HEIGHT]
  ring

end QuantizationLemmas

section LayoutLemmas

/-- The while loop is extensionally the arithmetic progression
`h, h + p, …` of length `⌈(e - h)/p⌉⁺`. -/
theorem stepPositions_eq_arange (p : ℚ) (hp : 0 < p) (h e : ℚ) :
    stepPositions p h e =
      (List.range (⌈(e - h) / p⌉).toNat).map (fun (k : ℕ) => h + (k : ℚ) * p) := by
  generalize hn : (⌈(e - h) / p⌉).toNat = n
  induction n generalizing h with
  | zero =>
    have hle : e ≤ h := by
      by_contra hlt
      push_neg at hlt
      have : 0 < ⌈(e - h) / p⌉ := Int.ceil_pos.mpr (div_pos (by linarith) hp)
      omega
    rw [stepPositions]
    simp [hp, not_lt.mpr hle]
  | succ n ih =>
    have hlt : h < e := by
      by_contra hle
      push_neg at hle
      have : ⌈(e - h) / p⌉ ≤ 0 :=
        Int.ceil_le.mpr (by
          simpa using div_nonpos_of_nonpos_of_nonneg (by linarith) (le_of_lt hp))
      omega
    have hsucc : (⌈(e - (h + p)) / p⌉).toNat = n := by
      have hstep : (e - (h + p)) / p = (e - h) / p - 1 := by
        field_simp
        ring
      have : ⌈(e - (h + p)) / p⌉ = ⌈(e - h) / p⌉ - 1 := by
        rw [hstep, Int.ceil_sub_one]
      have hpos : 0 < ⌈(e - h) / p⌉ := Int.ceil_pos.mpr (div_pos (by linarith) hp)
      omega
    rw [stepPositions]
    simp only [hp, hlt, dif_pos, if_pos]
    rw [ih (h + p) hsucc, List.range_succ_eq_map, List.map_cons, List.map_map]
    congr 1
    · push_cast
      ring
    · apply List.map_congr_left
      intro k _
      simp only [Function.comp_apply]
      push_cast
      ring

theorem length_stepPositions (p : ℚ) (hp : 0 < p) (h e : ℚ) :
    (stepPositions p h e).length = (⌈(e - h) / p⌉).toNat := by
  rw [stepPositions_eq_arange p hp h e]
  simp

theorem getElem_stepPositions (p : ℚ) (hp : 0 < p) (h e : ℚ) (i : ℕ)
    (hi : i < (stepPositions p h e).length) :
    (stepPositions p h e)[i] = h + (i : ℚ) * p := by
  revert hi
  rw [stepPositions_eq_arange p hp h e]
  intro hi
  simp at hi
  simp [hi]

theorem length_arange {α : Type} [LinearOrderedField α] [FloorRing α]
    (start stop step : α) :
    (arange start stop step).length = (⌈(stop - start) / step⌉).toNat := by
  simp [arange]

theorem getElem_arange {α : Type} [LinearOrderedField α] [FloorRing α]
    (start stop step : α) (i : ℕ) (hi : i < (arange start stop step).length) :
    (arange start stop step)[i] = start + (i : α) * step := by
  unfold arange at hi ⊢
  simp at hi
  simp [hi]

end LayoutLemmas

section MoreRounding

variable {α : Type} [LinearOrderedField α] [FloorRing α]

theorem bankersRound_eq_floor_of {x : α} (h : x - (⌊x⌋ : α) < 1/2) :
    bankersRound x = ⌊x⌋ := by
  unfold bankersRound
  rw [if_pos h]

theorem bankersRound_eq_floor_add_one_of {x : α} (h : (1 : α)/2 < x - (⌊x⌋ : α)) :
    bankersRound x = ⌊x⌋ + 1 := by
  unfold bankersRound
  rw [if_neg (by linarith), if_pos h]

end MoreRounding

section ListMinMax

theorem foldl_min_le_init (xs : List ℚ) (a : ℚ) : xs.foldl min a ≤ a := by
  induction xs generalizing a with
  | nil => simp
  | cons x xs ih => exact le_trans (ih (min a x)) (min_le_left a x)

theorem foldl_min_le_mem (xs : List ℚ) (a x : ℚ) (hx : x ∈ xs) :
    xs.foldl min a ≤ x := by
  induction xs generalizing a with
  | nil => simp at hx
  | cons y ys ih =>
    rcases List.mem_cons.mp hx with h | h
    · subst h
      exact le_trans (foldl_min_le_init ys (min a x)) (min_le_right a x)
    · exact ih (min a y) h

theorem foldl_min_choice (xs : List ℚ) (a : ℚ) :
    xs.foldl min a = a ∨ xs.foldl min a ∈ xs := by
  induction xs generalizing a with
  | nil => left; rfl
  | cons y ys ih =>
    rcases ih (min a y) with h | h
    · rcases min_choice a y with h' | h'
      · left; rw [List.foldl_cons, h, h']
      · right; rw [List.foldl_cons, h, h']; exact List.mem_cons_self y ys
    · right; exact List.mem_cons_of_mem y h

theorem init_le_foldl_max (xs : List ℚ) (a : ℚ) : a ≤ xs.foldl max a := by
  induction xs generalizing a with
  | nil => simp
  | cons x xs ih => exact le_trans (le_max_left a x) (ih (max a x))

theorem mem_le_foldl_max (xs : List ℚ) (a x : ℚ) (hx : x ∈ xs) :
    x ≤ xs.foldl max a := by
  induction xs generalizing a with
  | nil => simp at hx
  | cons y ys ih =>
    rcases List.mem_cons.mp hx with h | h
    · subst h
      exact le_trans (le_max_right a x) (init_le_foldl_max ys (max a x))
    · exact ih (max a y) h

theorem foldl_max_choice (xs : List ℚ) (a : ℚ) :
    xs.foldl max a = a ∨ xs.foldl max a ∈ xs := by
  induction xs generalizing a with
  | nil => left; rfl
  | cons y ys ih =>
    rcases ih (max a y) with h | h
    · rcases max_choice a y with h' | h'
      · left; rw [List.foldl_cons, h, h']
      · right; rw [List.foldl_cons, h, h']; exact List.mem_cons_self y ys
    · right; exact List.mem_cons_of_mem y h

theorem listMin_le {l : List ℚ} {m : ℚ} (hm : listMin l = some m) :
    ∀ x ∈ l, m ≤ x := by
  match l with
  | [] => simp [listMin] at hm
  | x :: xs =>
    simp only [listMin, Option.some.injEq] at hm
    subst hm
    intro y hy
    rcases List.mem_cons.mp hy with h | h
    · subst h; exact foldl_min_le_init xs y
    · exact foldl_min_le_mem xs x y h

theorem listMin_mem {l : List ℚ} {m : ℚ} (hm : listMin l = some m) : m ∈ l := by
  match l with
  | [] => simp [listMin] at hm
  | x :: xs =>
    simp only [listMin, Option.some.injEq] at hm
    subst hm
    rcases foldl_min_choice xs x with h | h
    · rw [h]; exact List.mem_cons_self x xs
    · exact List.mem_cons_of_mem x h

theorem le_listMax {l : List ℚ} {m : ℚ} (hm : listMax l = some m) :
    ∀ x ∈ l, x ≤ m := by
  match l with
  | [] => simp [listMax] at hm
  | x :: xs =>
    simp only [listMax, Option.some.injEq] at hm
    subst hm
    intro y hy
    rcases List.mem_cons.mp hy with h | h
    · subst h; exact init_le_foldl_max xs y
    · exact mem_le_foldl_max xs x y h

theorem listMax_mem {l : List ℚ} {m : ℚ} (hm : listMax l = some m) : m ∈ l := by
  match l with
  | [] => simp [listMax] at hm
  | x :: xs =>
    simp only [listMax, Option.some.injEq] at hm
    subst hm
    rcases foldl_max_choice xs x with h | h
    · rw [h]; exact List.mem_cons_self x xs
    · exact List.mem_cons_of_mem x h

theorem listMin_eq_none_iff {l : List ℚ} : listMin l = none ↔ l = [] := by
  cases l <;> simp [listMin]

theorem listMax_eq_none_iff {l : List ℚ} : listMax l = none ↔ l = [] := by
  cases l <;> simp [listMax]

theorem listMin_isSome_of_ne_nil {l : List ℚ} (h : l ≠ []) :
    ∃ m, listMin l = some m := by
  cases l with
  | nil => exact absurd rfl h
  | cons x xs => exact ⟨xs.foldl min x, rfl⟩

theorem listMax_isSome_of_ne_nil {l : List ℚ} (h : l ≠ []) :
    ∃ m, listMax l = some m := by
  cases l with
  | nil => exact absurd rfl h
  | cons x xs => exact ⟨xs.foldl max x, rfl⟩

end ListMinMax

section EngineLemmas

theorem assemblePlan_getElem? (c₀ : Point) (plan : List ℚ) (i : ℕ) :
    (assemblePlan c₀ plan)[i]? = (plan[i]?).map (fun h => dovetailStep c₀ i h) := by
  unfold assemblePlan
  rw [List.getElem?_map, List.enum, List.getElem?_enumFrom]
  cases plan[i]? <;> simp

end EngineLemmas

section Claims

/-- C1: the claim that both axes apply `round_with_tolerance(E/P)` fails on
the code: the Z variant floors `E/P` before the tolerance test, so at
`E = 0.57`, `P = 0.3` (`f = 1.9`, `ceil(f) - f = 0.1 < 0.25`) the Z count is
`1` while the Y count and the specification rule both give `2`; equal `E`
and `P` produce different counts on the two axes. -/
theorem c1_quantization_rule_divergence :
    quantCountZ (57/100) (3/10) = 1 ∧
    quantCountY (57/100) (3/10) = 2 ∧
    specRoundWithTolerance ((57/100 : ℚ) / (3/10)) = 2 := by
  have hf : ((57/100 : ℚ) / (3/10)) = 19/10 := by norm_num
  have hceil : (⌈(19/10 : ℚ)⌉ : ℤ) = 2 := by
    rw [Int.ceil_eq_iff] <;> norm_num
  refine ⟨?_, ?_, ?_⟩
  · rw [quantCountZ_eq_floor, hf]
    norm_num
  · rw [quantCountY_eq_spec]
    unfold specRoundWithTolerance
    rw [hf, hceil]
    norm_num
  · unfold specRoundWithTolerance
    rw [hf, hceil]
    norm_num

/-- C5 counterexample: at available extent `E = -0.3 ≤ 0` and pitch
`P = 0.3` the quantization count of the code is `-1`, not `0` as the claim
states. -/
theorem c5_count_not_zero_cx :
    ((-3/10 : ℚ) ≤ 0) ∧ quantCountZ (-3/10) (3/10) ≠ 0 := by
  constructor
  · norm_num
  · rw [quantCountZ_eq_floor]
    norm_num

/-- C5 amended: whenever the available extent `E` is `≤ 0`, the quantized
count is `≤ 0` (it may be negative), the physical size is `≤ 0`, the
pattern end does not exceed the pattern start, the placement plan is empty,
and the beam assembly loop issues no boolean operation, leaving both mesh
halves as the inputs. -/
theorem c5_degenerate_extent (E P c : ℚ) (n : ℕ) (hE : E ≤ 0) (hn : 1 ≤ n)
    (hP : P = (n : ℚ) * LAYER_HEIGHT) :
    quantCountZ E P ≤ 0 ∧
    quantCountY E P ≤ 0 ∧
    intPatternSize (quantCountZ E P) P ≤ 0 ∧
    patternEnd c (intPatternSize (quantCountZ E P) P) ≤
      patternStart c (intPatternSize (quantCountZ E P) P) ∧
    stepPositions P (patternStart c (intPatternSize (quantCountZ E P) P))
      (patternEnd c (intPatternSize (quantCountZ E P) P)) = [] ∧
    beamBooleanFold
      (stepPositions P (patternStart c (intPatternSize (quantCountZ E P) P))
        (patternEnd c (intPatternSize (quantCountZ E P) P))) =
      (MeshExpr.input, MeshExpr.input) := by
  have hn' : (1 : ℚ) ≤ (n : ℚ) := by exact_mod_cast hn
  have hL : (0 : ℚ) < LAYER_HEIGHT := by norm_num [LAYER_HEIGHT]
  have hPpos : 0 < P := by rw [hP]; nlinarith
  have hfP : E / P ≤ 0 := div_nonpos_of_nonpos_of_nonneg hE hPpos.le
  have hcz : quantCountZ E P ≤ 0 := by
    rw [quantCountZ_eq_floor]
    exact le_trans (Int.floor_le_floor hfP) (by simp)
  have hcy : quantCountY E P ≤ 0 := by
    rw [quantCountY_eq_spec]
    unfold specRoundWithTolerance
    split_ifs
    · exact Int.ceil_le.mpr (by exact_mod_cast hfP)
    · exact le_trans (Int.floor_le_floor hfP) (by simp)
  have hphys : intPatternSize (quantCountZ E P) P ≤ 0 := by
    unfold intPatternSize
    apply roundDec_nonpos
    exact mul_nonpos_iff.mpr (Or.inr ⟨by exact_mod_cast hcz, hPpos.le⟩)
  have hse : patternEnd c (intPatternSize (quantCountZ E P) P) ≤
      patternStart c (intPatternSize (quantCountZ E P) P) := by
    unfold patternStart patternEnd
    linarith
  have hplan : stepPositions P (patternStart c (intPatternSize (quantCountZ E P) P))
      (patternEnd c (intPatternSize (quantCountZ E P) P)) = [] := by
    rw [stepPositions]
    simp [hPpos, not_lt.mpr hse]
  exact ⟨hcz, hcy, hphys, hse, hplan, by rw [hplan]; rfl⟩

/-- C5 witness: the amended statement at `E = -1`, `P = 0.3`, `c = 0`. -/
theorem c5_degenerate_extent_witness :
    quantCountZ (-1) (3/10) ≤ 0 ∧
    quantCountY (-1) (3/10) ≤ 0 ∧
    intPatternSize (quantCountZ (-1) (3/10)) (3/10) ≤ 0 ∧
    patternEnd 0 (intPatternSize (quantCountZ (-1) (3/10)) (3/10)) ≤
      patternStart 0 (intPatternSize (quantCountZ (-1) (3/10)) (3/10)) ∧
    stepPositions (3/10) (patternStart 0 (intPatternSize (quantCountZ (-1) (3/10)) (3/10)))
      (patternEnd 0 (intPatternSize (quantCountZ (-1) (3/10)) (3/10))) = [] ∧
    beamBooleanFold
      (stepPositions (3/10) (patternStart 0 (intPatternSize (quantCountZ (-1) (3/10)) (3/10)))
        (patternEnd 0 (intPatternSize (quantCountZ (-1) (3/10)) (3/10)))) =
      (MeshExpr.input, MeshExpr.input) :=
  c5_degenerate_extent (-1) (3/10) 0 2 (by norm_num) (by norm_num)
    (by norm_num [LAYER_HEIGHT])

/-- C7: for every positive extent `E` and feature pitch
`P = n * LAYER_HEIGHT` with `n ≥ 1`, the physical size produced by either
quantization never exceeds `E + P/2` and is an exact integer multiple of
`P` (here with no error at all: 3-decimal rounding is exact for such
pitches). -/
theorem c7_physical_size_bounds (E P : ℚ) (n : ℕ) (hE : 0 < E) (hn : 1 ≤ n)
    (hP : P = (n : ℚ) * LAYER_HEIGHT) :
    intPatternSize (quantCountY E P) P ≤ E + P / 2 ∧
    (∃ k : ℤ, intPatternSize (quantCountY E P) P = (k : ℚ) * P) ∧
    intPatternSize (quantCountZ E P) P ≤ E + P / 2 ∧
    (∃ k : ℤ, intPatternSize (quantCountZ E P) P = (k : ℚ) * P) := by
  have hn' : (1 : ℚ) ≤ (n : ℚ) := by exact_mod_cast hn
  have hL : (0 : ℚ) < LAYER_HEIGHT := by norm_num [LAYER_HEIGHT]
  have hPpos : 0 < P := by rw [hP]; nlinarith
  have hexact : ∀ k : ℤ, intPatternSize k P = (k : ℚ) * P := by
    intro k
    rw [hP]
    exact intPatternSize_exact k n
  have hEP : E / P * P = E := div_mul_cancel₀ E (ne_of_gt hPpos)
  have hYbound : intPatternSize (quantCountY E P) P ≤ E + P / 2 := by
    rw [hexact]
    rw [quantCountY_eq_spec]
    unfold specRoundWithTolerance
    split_ifs with hc
    · have h1 : (⌈E / P⌉ : ℚ) < E / P + 1/4 := by linarith
      have h2 : (⌈E / P⌉ : ℚ) * P < (E / P + 1/4) * P :=
        mul_lt_mul_of_pos_right h1 hPpos
      have h3 : (E / P + 1/4) * P = E + P / 4 := by
        rw [add_mul, hEP]
        ring
      linarith
    · have h1 : (⌊E / P⌋ : ℚ) ≤ E / P := Int.floor_le _
      have h2 : (⌊E / P⌋ : ℚ) * P ≤ E / P * P :=
        mul_le_mul_of_nonneg_right h1 hPpos.le
      rw [hEP] at h2
      linarith
  have hZbound : intPatternSize (quantCountZ E P) P ≤ E + P / 2 := by
    rw [hexact, quantCountZ_eq_floor]
    have h1 : (⌊E / P⌋ : ℚ) ≤ E / P := Int.floor_le _
    have h2 : (⌊E / P⌋ : ℚ) * P ≤ E / P * P :=
      mul_le_mul_of_nonneg_right h1 hPpos.le
    rw [hEP] at h2
    linarith
  exact ⟨hYbound, ⟨quantCountY E P, hexact _⟩, hZbound, ⟨quantCountZ E P, hexact _⟩⟩

/-- C7 witness: the bound and exact-multiple facts at `E = 1`, `P = 0.3`. -/
theorem c7_physical_size_bounds_witness :
    intPatternSize (quantCountY 1 (3/10)) (3/10) ≤ 1 + (3/10) / 2 ∧
    (∃ k : ℤ, intPatternSize (quantCountY 1 (3/10)) (3/10) = (k : ℚ) * (3/10)) ∧
    intPatternSize (quantCountZ 1 (3/10)) (3/10) ≤ 1 + (3/10) / 2 ∧
    (∃ k : ℤ, intPatternSize (quantCountZ 1 (3/10)) (3/10) = (k : ℚ) * (3/10)) :=
  c7_physical_size_bounds 1 (3/10) 2 (by norm_num) (by norm_num)
    (by norm_num [LAYER_HEIGHT])

/-- C4 helper: the length of the while-loop plan over an exact span
`count * P` is `count`. -/
theorem length_stepPositions_count (P h : ℚ) (count : ℤ) (hP : 0 < P)
    (hc : 0 ≤ count) :
    ((stepPositions P h (h + (count : ℚ) * P)).length : ℤ) = count := by
  rw [length_stepPositions P hP]
  have hspan : (h + (count : ℚ) * P - h) / P = (count : ℚ) := by
    field_simp
  rw [hspan, Int.ceil_intCast, Int.toNat_of_nonneg hc]

/-- C4 counterexample: with available extent `E = 0.9` and nominal pitch
`P = 0.3` (two layers) the quantization count is `3` and the physical span
is `0.9`, but the dovetail plan steps `np.arange` by the taper-derived
large height — `0.9` for a small height of `0.3` at a 45° taper — so the
plan has `1` placement, not `count = 3`. -/
theorem c4_dovetail_count_cx :
    quantCountZ (9/10) (3/10) = 3 ∧
    intPatternSize (quantCountZ (9/10) (3/10)) (3/10) = 9/10 ∧
    dovetailLargeHeight (3/10 : ℝ) 45 = 9/10 ∧
    (arange (0 : ℝ) (9/10) (dovetailLargeHeight (3/10 : ℝ) 45)).length = 1 := by
  have hcount : quantCountZ (9/10) (3/10) = 3 := by
    rw [quantCountZ_eq_floor]
    norm_num
  have hLH : ((LAYER_HEIGHT : ℚ) : ℝ) = 3/20 := by
    norm_num [LAYER_HEIGHT]
  have htan : Real.tan ((45 : ℝ) * Real.pi / 180) = 1 := by
    have h45 : (45 : ℝ) * Real.pi / 180 = Real.pi / 4 := by ring
    rw [h45, Real.tan_pi_div_four]
  have hlarge : dovetailLargeHeight (3/10 : ℝ) 45 = 9/10 := by
    show roundDec 2
      ((bankersRound (((3/10 : ℝ) + 2 * ((3/10) * Real.tan ((45 : ℝ) * Real.pi / 180))) /
          (LAYER_HEIGHT : ℝ)) : ℝ) * (LAYER_HEIGHT : ℝ)) = 9/10
    rw [htan, hLH]
    have h6 : ((3/10 : ℝ) + 2 * ((3/10) * 1)) / (3/20) = ((6 : ℤ) : ℝ) := by
      norm_num
    rw [h6, bankersRound_intCast]
    have h9 : ((6 : ℤ) : ℝ) * (3/20) = 9/10 := by norm_num
    rw [h9]
    apply roundDec_eq_self 90
    norm_num
  refine ⟨hcount, ?_, hlarge, ?_⟩
  · rw [hcount]
    have : ((3 : ℤ) : ℚ) * (3/10) * 10 ^ 3 = ((900 : ℤ) : ℚ) := by norm_num
    unfold intPatternSize
    rw [roundDec_eq_self 900 this]
    norm_num
  · rw [hlarge, length_arange]
    norm_num

/-- C4 amended: the beam plan from a quantization with count
`quantCountZ E P` has exactly that many placements, starts at the pattern
start, steps by exactly the pitch `P`, and is non-empty whenever the
pattern end exceeds the pattern start; the dovetail plan steps `np.arange`
by the (taper-derived) pitch given to it, so its length is
`⌈(end - start)/pitch⌉` rather than the quantization count — the two can
differ, as the counterexample shows. -/
theorem c4_placement_plan (E P c : ℚ) (n : ℕ) (hE : 0 < E) (hn : 1 ≤ n)
    (hP : P = (n : ℚ) * LAYER_HEIGHT) :
    (((beamPlanZ E P c).length : ℤ) = quantCountZ E P) ∧
    (quantCountZ E P ≠ 0 →
      (beamPlanZ E P c)[0]? =
        some (patternStart c (intPatternSize (quantCountZ E P) P))) ∧
    (∀ i : ℕ, i + 1 < (beamPlanZ E P c).length →
      ∃ a b, (beamPlanZ E P c)[i]? = some a ∧
        (beamPlanZ E P c)[i+1]? = some b ∧ b - a = P) ∧
    (patternStart c (intPatternSize (quantCountZ E P) P) <
        patternEnd c (intPatternSize (quantCountZ E P) P) →
      beamPlanZ E P c ≠ []) ∧
    (∀ s e step : ℝ, 0 < step →
      (arange s e step).length = (⌈(e - s) / step⌉).toNat ∧
      (s < e → (arange s e step)[0]? = some s) ∧
      (∀ i : ℕ, i + 1 < (arange s e step).length →
        ∃ a b, (arange s e step)[i]? = some a ∧
          (arange s e step)[i+1]? = some b ∧ b - a = step) ∧
      (s < e → arange s e step ≠ [])) := by
  have hn' : (1 : ℚ) ≤ (n : ℚ) := by exact_mod_cast hn
  have hL : (0 : ℚ) < LAYER_HEIGHT := by norm_num [LAYER_HEIGHT]
  have hPpos : 0 < P := by rw [hP]; nlinarith
  have hc0 : 0 ≤ quantCountZ E P := quantCountZ_nonneg hE hPpos
  have hexact : intPatternSize (quantCountZ E P) P = (quantCountZ E P : ℚ) * P := by
    rw [hP]; exact intPatternSize_exact _ n
  have hspan : patternEnd c (intPatternSize (quantCountZ E P) P) =
      patternStart c (intPatternSize (quantCountZ E P) P) +
        (quantCountZ E P : ℚ) * P := by
    unfold patternStart patternEnd
    rw [hexact]
    ring
  have hlen : ((beamPlanZ E P c).length : ℤ) = quantCountZ E P := by
    unfold beamPlanZ
    rw [hspan]
    exact length_stepPositions_count P _ _ hPpos hc0
  refine ⟨hlen, ?_, ?_, ?_, ?_⟩
  · intro hne
    have hpos : 0 < (beamPlanZ E P c).length := by omega
    rw [List.getElem?_eq_getElem hpos]
    unfold beamPlanZ at hpos ⊢
    rw [getElem_stepPositions P hPpos _ _ 0 hpos]
    norm_num
  · intro i hi
    have hi1 : i < (beamPlanZ E P c).length := by omega
    refine ⟨patternStart c (intPatternSize (quantCountZ E P) P) + (i : ℚ) * P,
      patternStart c (intPatternSize (quantCountZ E P) P) + ((i : ℚ) + 1) * P,
      ?_, ?_, by ring⟩
    · rw [List.getElem?_eq_getElem hi1]
      unfold beamPlanZ at hi1 ⊢
      rw [getElem_stepPositions P hPpos _ _ i hi1]
    · rw [List.getElem?_eq_getElem hi]
      unfold beamPlanZ at hi ⊢
      rw [getElem_stepPositions P hPpos _ _ (i+1) hi]
      push_cast
      ring_nf
  · intro hlt
    unfold beamPlanZ
    rw [stepPositions]
    simp [hPpos, hlt]
  · intro s e step hstep
    have hlen' : (arange s e step).length = (⌈(e - s) / step⌉).toNat :=
      length_arange s e step
    refine ⟨hlen', ?_, ?_, ?_⟩
    · intro hse
      have hpos : 0 < (arange s e step).length := by
        rw [hlen']
        have : 0 < ⌈(e - s) / step⌉ :=
          Int.ceil_pos.mpr (div_pos (by linarith) hstep)
        omega
      rw [List.getElem?_eq_getElem hpos, getElem_arange s e step 0 hpos]
      norm_num
    · intro i hi
      have hi1 : i < (arange s e step).length := by omega
      refine ⟨s + (i : ℝ) * step, s + ((i : ℝ) + 1) * step, ?_, ?_, by ring⟩
      · rw [List.getElem?_eq_getElem hi1, getElem_arange s e step i hi1]
      · rw [List.getElem?_eq_getElem hi, getElem_arange s e step (i+1) hi]
        push_cast
        ring_nf
    · intro hse
      have hpos : 0 < (arange s e step).length := by
        rw [hlen']
        have : 0 < ⌈(e - s) / step⌉ :=
          Int.ceil_pos.mpr (div_pos (by linarith) hstep)
        omega
      exact List.ne_nil_of_length_pos hpos

/-- C4 witness: the amended plan facts at `E = 1`, `P = 0.3`, `c = 0`
(count 3, physical size 0.9, plan `[-0.45, -0.15, 0.15]`). -/
theorem c4_placement_plan_witness :
    (((beamPlanZ 1 (3/10) 0).length : ℤ) = quantCountZ 1 (3/10)) ∧
    (quantCountZ 1 (3/10) ≠ 0 →
      (beamPlanZ 1 (3/10) 0)[0]? =
        some (patternStart 0 (intPatternSize (quantCountZ 1 (3/10)) (3/10)))) ∧
    (∀ i : ℕ, i + 1 < (beamPlanZ 1 (3/10) 0).length →
      ∃ a b, (beamPlanZ 1 (3/10) 0)[i]? = some a ∧
        (beamPlanZ 1 (3/10) 0)[i+1]? = some b ∧ b - a = 3/10) ∧
    (patternStart 0 (intPatternSize (quantCountZ 1 (3/10)) (3/10)) <
        patternEnd 0 (intPatternSize (quantCountZ 1 (3/10)) (3/10)) →
      beamPlanZ 1 (3/10) 0 ≠ []) ∧
    (∀ s e step : ℝ, 0 < step →
      (arange s e step).length = (⌈(e - s) / step⌉).toNat ∧
      (s < e → (arange s e step)[0]? = some s) ∧
      (∀ i : ℕ, i + 1 < (arange s e step).length →
        ∃ a b, (arange s e step)[i]? = some a ∧
          (arange s e step)[i+1]? = some b ∧ b - a = step) ∧
      (s < e → arange s e step ≠ [])) :=
  c4_placement_plan 1 (3/10) 0 2 (by norm_num) (by norm_num)
    (by norm_num [LAYER_HEIGHT])

/-- C2 counterexample: the odd-index rotation is about the vertical axis
`[0, 0, 1]`, not about the split axis X: with primitive centroid `(1,0,0)`
and plan `[0, 0]`, step 1 maps the point `(0,0,0)` to `(2,0,0)`, while a
180° rotation about the split axis through the centroid would leave it at
`(0,0,0)`. -/
theorem c2_rotation_axis_cx :
    ((assemblePlan ((1 : ℚ), 0, 0) [0, 0])[1]?).map
        (fun s => s.transform ((0 : ℚ), 0, 0)) =
      some ((2 : ℚ), 0, 0) ∧
    specRotX180About (translateZ 0 ((1 : ℚ), 0, 0)) (translateZ 0 ((0 : ℚ), 0, 0)) =
      ((0 : ℚ), 0, 0) ∧
    ((assemblePlan ((1 : ℚ), 0, 0) [0, 0])[1]?).map
        (fun s => s.transform ((0 : ℚ), 0, 0)) ≠
      some (specRotX180About (translateZ 0 ((1 : ℚ), 0, 0))
        (translateZ 0 ((0 : ℚ), 0, 0))) := by
  have h1 : ((assemblePlan ((1 : ℚ), 0, 0) [0, 0])[1]?).map
      (fun s => s.transform ((0 : ℚ), 0, 0)) = some ((2 : ℚ), 0, 0) := by
    rw [assemblePlan_getElem?]
    show Option.map _ (Option.map _ ([(0 : ℚ), 0][1]?)) = _
    simp only [List.getElem?_cons_succ, List.getElem?_cons_zero, Option.map_some]
    unfold dovetailStep rotZ180About translateZ
    norm_num
  have h2 : specRotX180About (translateZ 0 ((1 : ℚ), 0, 0))
      (translateZ 0 ((0 : ℚ), 0, 0)) = ((0 : ℚ), 0, 0) := by
    unfold specRotX180About translateZ
    norm_num
  refine ⟨h1, h2, ?_⟩
  rw [h1, h2]
  intro hcontra
  have := Option.some.inj hcontra
  have h20 : (2 : ℚ) = 0 := congrArg Prod.fst this
  norm_num at h20

/-- C2 amended: for every plan index, even steps translate the primitive by
`[0,0,position[i]]` with no rotation and do union-into-left /
difference-from-right, odd steps translate and then rotate 180° about the
vertical axis `[0,0,1]` (not the split axis) through the translated
primitive's centroid and do difference-from-left / union-into-right, and
the step's role is `Left` exactly at even indices. -/
theorem c2_assembly_alternation (c₀ : Point) (plan : List ℚ) (i : ℕ) (p : Point)
    (hi : i < plan.length) :
    ∃ s : AsmStep, (assemblePlan c₀ plan)[i]? = some s ∧
      (i % 2 = 0 →
        s.transform p = translateZ (plan.getD i 0) p ∧
        s.leftUnion = true ∧ s.rightUnion = false) ∧
      (i % 2 = 1 →
        s.transform p =
          rotZ180About (translateZ (plan.getD i 0) c₀) (translateZ (plan.getD i 0) p) ∧
        s.leftUnion = false ∧ s.rightUnion = true) ∧
      (s.role = Role.Left ↔ i % 2 = 0) := by
  have hsome : plan[i]? = some (plan.getD i 0) := by
    rw [List.getElem?_eq_getElem hi, List.getD_eq_getElem plan 0 hi]
  refine ⟨dovetailStep c₀ i (plan.getD i 0), ?_, ?_, ?_, ?_⟩
  · rw [assemblePlan_getElem?, hsome]
    rfl
  · intro heven
    unfold dovetailStep
    rw [if_pos heven]
    exact ⟨rfl, rfl, rfl⟩
  · intro hodd
    unfold dovetailStep
    rw [if_neg (by omega)]
    exact ⟨rfl, rfl, rfl⟩
  · unfold dovetailStep
    rcases Nat.mod_two_eq_zero_or_one i with h | h
    · rw [if_pos h]
      unfold AsmStep.role
      simp [h]
    · rw [if_neg (by omega)]
      unfold AsmStep.role
      simp [h]

/-- C2 witness: the amended alternation facts at centroid `(1,0,0)`, plan
`[0, 1]`, index 1, probe point `(0,0,0)`. -/
theorem c2_assembly_alternation_witness :
    ∃ s : AsmStep, (assemblePlan ((1 : ℚ), 0, 0) [0, 1])[1]? = some s ∧
      (1 % 2 = 0 →
        s.transform ((0 : ℚ), 0, 0) = translateZ ([(0 : ℚ), 1].getD 1 0) ((0 : ℚ), 0, 0) ∧
        s.leftUnion = true ∧ s.rightUnion = false) ∧
      (1 % 2 = 1 →
        s.transform ((0 : ℚ), 0, 0) =
          rotZ180About (translateZ ([(0 : ℚ), 1].getD 1 0) ((1 : ℚ), 0, 0))
            (translateZ ([(0 : ℚ), 1].getD 1 0) ((0 : ℚ), 0, 0)) ∧
        s.leftUnion = false ∧ s.rightUnion = true) ∧
      (s.role = Role.Left ↔ 1 % 2 = 0) :=
  c2_assembly_alternation ((1 : ℚ), 0, 0) [0, 1] 1 ((0 : ℚ), 0, 0) (by norm_num)

/-- C10: in both beam variants every step's transform is a pure translation
(no rotation is ever applied to a beam), and an odd-index placement is the
even-index placement mirrored across the cut plane along the depth axis:
the depth-axis center is `plane_x - d/2` at odd indices versus
`plane_x + d/2` at even indices (equivalently `2*plane_x - even-center`),
while the remaining coordinates are the same function of the placement
position. -/
theorem c10_beam_mirror (px d my w mz bh pos : ℚ) (i j : ℕ) (q : Point)
    (hi : i % 2 = 0) (hj : j % 2 = 1) :
    beamTransformZ px d my w i pos q = translateBy (beamTargetZ px d my w i pos) q ∧
    beamTransformZ px d my w j pos q = translateBy (beamTargetZ px d my w j pos) q ∧
    beamTransformY px d mz bh i pos q = translateBy (beamTargetY px d mz bh i pos) q ∧
    beamTransformY px d mz bh j pos q = translateBy (beamTargetY px d mz bh j pos) q ∧
    (beamTargetZ px d my w i pos).1 = px + d / 2 ∧
    (beamTargetZ px d my w j pos).1 = px - d / 2 ∧
    (beamTargetZ px d my w j pos).1 = 2 * px - (beamTargetZ px d my w i pos).1 ∧
    (beamTargetZ px d my w j pos).2 = (beamTargetZ px d my w i pos).2 ∧
    (beamTargetY px d mz bh i pos).1 = px + d / 2 ∧
    (beamTargetY px d mz bh j pos).1 = px - d / 2 ∧
    (beamTargetY px d mz bh j pos).1 = 2 * px - (beamTargetY px d mz bh i pos).1 ∧
    (beamTargetY px d mz bh j pos).2 = (beamTargetY px d mz bh i pos).2 := by
  have hzi : beamTargetZ px d my w i pos = (px + d / 2, my + w / 2, pos) := by
    unfold beamTargetZ
    rw [if_pos hi]
  have hzj : beamTargetZ px d my w j pos = (px - d / 2, my + w / 2, pos) := by
    unfold beamTargetZ
    rw [if_neg (by omega)]
  have hyi : beamTargetY px d mz bh i pos = (px + d / 2, pos, mz + bh / 2) := by
    unfold beamTargetY
    rw [if_pos hi]
  have hyj : beamTargetY px d mz bh j pos = (px - d / 2, pos, mz + bh / 2) := by
    unfold beamTargetY
    rw [if_neg (by omega)]
  refine ⟨rfl, rfl, rfl, rfl, ?_, ?_, ?_, ?_, ?_, ?_, ?_, ?_⟩
  · rw [hzi]
  · rw [hzj]
  · rw [hzi, hzj]
    ring
  · rw [hzi, hzj]
  · rw [hyi]
  · rw [hyj]
  · rw [hyi, hyj]
    ring
  · rw [hyi, hyj]

/-- C10 witness: the mirror facts at `plane_x = 5`, `d = 0.8`, concrete
bounds and position, indices 0 and 1, probe point `(0,0,0)`. -/
theorem c10_beam_mirror_witness :
    beamTransformZ 5 (4/5) 1 2 0 3 ((0 : ℚ), 0, 0) =
      translateBy (beamTargetZ 5 (4/5) 1 2 0 3) ((0 : ℚ), 0, 0) ∧
    beamTransformZ 5 (4/5) 1 2 1 3 ((0 : ℚ), 0, 0) =
      translateBy (beamTargetZ 5 (4/5) 1 2 1 3) ((0 : ℚ), 0, 0) ∧
    beamTransformY 5 (4/5) 1 2 0 3 ((0 : ℚ), 0, 0) =
      translateBy (beamTargetY 5 (4/5) 1 2 0 3) ((0 : ℚ), 0, 0) ∧
    beamTransformY 5 (4/5) 1 2 1 3 ((0 : ℚ), 0, 0) =
      translateBy (beamTargetY 5 (4/5) 1 2 1 3) ((0 : ℚ), 0, 0) ∧
    (beamTargetZ 5 (4/5) 1 2 0 3).1 = 5 + (4/5) / 2 ∧
    (beamTargetZ 5 (4/5) 1 2 1 3).1 = 5 - (4/5) / 2 ∧
    (beamTargetZ 5 (4/5) 1 2 1 3).1 = 2 * 5 - (beamTargetZ 5 (4/5) 1 2 0 3).1 ∧
    (beamTargetZ 5 (4/5) 1 2 1 3).2 = (beamTargetZ 5 (4/5) 1 2 0 3).2 ∧
    (beamTargetY 5 (4/5) 1 2 0 3).1 = 5 + (4/5) / 2 ∧
    (beamTargetY 5 (4/5) 1 2 1 3).1 = 5 - (4/5) / 2 ∧
    (beamTargetY 5 (4/5) 1 2 1 3).1 = 2 * 5 - (beamTargetY 5 (4/5) 1 2 0 3).1 ∧
    (beamTargetY 5 (4/5) 1 2 1 3).2 = (beamTargetY 5 (4/5) 1 2 0 3).2 :=
  c10_beam_mirror 5 (4/5) 1 2 1 2 3 0 1 (((0 : ℚ), (0 : ℚ), (0 : ℚ)) : Point) (by norm_num)
    (by norm_num)

/-- Numeric bounds on `tan 10°` used to evaluate the taper solver. -/
theorem tan_deg10_bounds :
    (0.17 : ℝ) < Real.tan ((10 : ℝ) * Real.pi / 180) ∧
    Real.tan ((10 : ℝ) * Real.pi / 180) < (0.178 : ℝ) := by
  have h18 : (10 : ℝ) * Real.pi / 180 = Real.pi / 18 := by ring
  rw [h18]
  have hgt : (3.1415 : ℝ) < Real.pi := Real.pi_gt_d4
  have hlt : Real.pi < (3.1416 : ℝ) := Real.pi_lt_d4
  have hxpos : (0 : ℝ) < Real.pi / 18 := by linarith
  have hxlt2 : Real.pi / 18 < Real.pi / 2 := by linarith
  constructor
  · have htan := Real.lt_tan hxpos hxlt2
    linarith
  · have hsin : Real.sin (Real.pi / 18) < Real.pi / 18 := Real.sin_lt hxpos
    have hcos : 1 - (Real.pi / 18) ^ 2 / 2 ≤ Real.cos (Real.pi / 18) :=
      Real.one_sub_sq_div_two_le_cos
    have hub : Real.pi / 18 < (0.17454 : ℝ) := by linarith
    have hsq : (Real.pi / 18) ^ 2 < (0.17454 : ℝ) ^ 2 := by nlinarith
    have hcoslb : (0.984 : ℝ) < Real.cos (Real.pi / 18) := by nlinarith
    have hcpos : (0 : ℝ) < Real.cos (Real.pi / 18) := by linarith
    rw [Real.tan_eq_sin_div_cos, div_lt_iff hcpos]
    nlinarith

/-- C8: the linear-dovetail taper solver is exactly the specification's
contract (`delta = S tan θ`, `large = S + 2 delta`, snap to the nearest
layer-height multiple at 2 decimals), and at `S = 0.6` mm, `θ = 10°`,
layer height 0.15 mm the snap factor is 5 and the returned large height is
0.75 mm. -/
theorem c8_taper_solver_example :
    (∀ S θ : ℝ, dovetailLargeHeight S θ = specTaperLarge S θ) ∧
    dovetailLargeFactor (0.6 : ℝ) 10 = 5 ∧
    dovetailLargeHeight (0.6 : ℝ) 10 = 0.75 := by
  have hLH : ((LAYER_HEIGHT : ℚ) : ℝ) = 3/20 := by norm_num [LAYER_HEIGHT]
  obtain ⟨htl, htu⟩ := tan_deg10_bounds
  have hfac : dovetailLargeFactor (0.6 : ℝ) 10 = 5 := by
    show bankersRound
      (((0.6 : ℝ) + 2 * ((0.6 : ℝ) * Real.tan ((10 : ℝ) * Real.pi / 180))) /
        (LAYER_HEIGHT : ℝ)) = 5
    rw [hLH]
    have hx : ((0.6 : ℝ) + 2 * ((0.6 : ℝ) * Real.tan ((10 : ℝ) * Real.pi / 180))) / (3/20) =
        4 + 8 * Real.tan ((10 : ℝ) * Real.pi / 180) := by
      ring
    rw [hx]
    have hfl : ⌊(4 : ℝ) + 8 * Real.tan ((10 : ℝ) * Real.pi / 180)⌋ = 5 := by
      rw [Int.floor_eq_iff]
      constructor
      · push_cast
        linarith
      · push_cast
        linarith
    rw [bankersRound_eq_floor_of (by rw [hfl]; push_cast; linarith), hfl]
  refine ⟨fun S θ => rfl, hfac, ?_⟩
  unfold dovetailLargeHeight
  rw [hfac, hLH]
  have h34 : ((5 : ℤ) : ℝ) * (3/20) = 3/4 := by norm_num
  rw [h34, roundDec_eq_self 75 (by norm_num)]
  norm_num

/-- C6: the taper solver has no rejection path for a non-positive angle —
at `θ = 0` it silently returns `large = S` (snap factor 4 for `S = 0.6`) —
and the numeric contract `large ≥ S` also fails for a positive angle: at
`S = 0.02 > 0`, `θ = 45° > 0` the snap factor is 0 and the returned large
height is `0 < S`. -/
theorem c6_taper_validation_gaps :
    dovetailLargeFactor (0.6 : ℝ) 0 = 4 ∧
    dovetailLargeHeight (0.6 : ℝ) 0 = 0.6 ∧
    (0 : ℝ) < 0.02 ∧ (0 : ℝ) < 45 ∧
    dovetailLargeHeight (0.02 : ℝ) 45 = 0 ∧
    dovetailLargeHeight (0.02 : ℝ) 45 < 0.02 := by
  have hLH : ((LAYER_HEIGHT : ℚ) : ℝ) = 3/20 := by norm_num [LAYER_HEIGHT]
  have htan0 : Real.tan ((0 : ℝ) * Real.pi / 180) = 0 := by
    rw [show (0 : ℝ) * Real.pi / 180 = 0 by ring, Real.tan_zero]
  have htan45 : Real.tan ((45 : ℝ) * Real.pi / 180) = 1 := by
    rw [show (45 : ℝ) * Real.pi / 180 = Real.pi / 4 by ring, Real.tan_pi_div_four]
  have hfac0 : dovetailLargeFactor (0.6 : ℝ) 0 = 4 := by
    show bankersRound
      (((0.6 : ℝ) + 2 * ((0.6 : ℝ) * Real.tan ((0 : ℝ) * Real.pi / 180))) /
        (LAYER_HEIGHT : ℝ)) = 4
    rw [htan0, hLH]
    rw [show ((0.6 : ℝ) + 2 * ((0.6 : ℝ) * 0)) / (3/20) = ((4 : ℤ) : ℝ) by norm_num]
    exact bankersRound_intCast 4
  have hh0 : dovetailLargeHeight (0.6 : ℝ) 0 = 0.6 := by
    unfold dovetailLargeHeight
    rw [hfac0, hLH]
    rw [show ((4 : ℤ) : ℝ) * (3/20) = 3/5 by norm_num]
    rw [roundDec_eq_self 60 (by norm_num)]
    norm_num
  have hfac45 : dovetailLargeFactor (0.02 : ℝ) 45 = 0 := by
    show bankersRound
      (((0.02 : ℝ) + 2 * ((0.02 : ℝ) * Real.tan ((45 : ℝ) * Real.pi / 180))) /
        (LAYER_HEIGHT : ℝ)) = 0
    rw [htan45, hLH]
    rw [show ((0.02 : ℝ) + 2 * ((0.02 : ℝ) * 1)) / (3/20) = 2/5 by norm_num]
    have hfl : ⌊(2/5 : ℝ)⌋ = 0 := by
      rw [Int.floor_eq_iff] <;> norm_num
    rw [bankersRound_eq_floor_of (by rw [hfl]; norm_num), hfl]
  have hh45 : dovetailLargeHeight (0.02 : ℝ) 45 = 0 := by
    unfold dovetailLargeHeight
    rw [hfac45, hLH]
    rw [show ((0 : ℤ) : ℝ) * (3/20) = ((0 : ℤ) : ℝ) by norm_num]
    rw [roundDec_eq_self 0 (by norm_num)]
    norm_num
  refine ⟨hfac0, hh0, by norm_num, by norm_num, hh45, ?_⟩
  rw [hh45]
  norm_num

/-- C3 counterexample: with `θz = θy = 45°`, `z_small = 0.3`,
`y_small = 0.6`, the code's Y large width is 1.2 — its delta is computed
from the Z small height — while the claim's per-axis rule (delta from the Y
small width itself) gives 1.8. -/
theorem c3_y_width_cx :
    (dovetail3DLargeDims 45 45 (0.3 : ℝ) 0.6).2 = 1.2 ∧
    specTaperLarge (0.6 : ℝ) 45 = 1.8 ∧
    (dovetail3DLargeDims 45 45 (0.3 : ℝ) 0.6).2 ≠ specTaperLarge (0.6 : ℝ) 45 := by
  have hLH : ((LAYER_HEIGHT : ℚ) : ℝ) = 3/20 := by norm_num [LAYER_HEIGHT]
  have htan45 : Real.tan ((45 : ℝ) * Real.pi / 180) = 1 := by
    rw [show (45 : ℝ) * Real.pi / 180 = Real.pi / 4 by ring, Real.tan_pi_div_four]
  have hcode : (dovetail3DLargeDims 45 45 (0.3 : ℝ) 0.6).2 = 1.2 := by
    show roundDec 2
      ((bankersRound (((0.6 : ℝ) + 2 * ((0.3 : ℝ) * Real.tan ((45 : ℝ) * Real.pi / 180))) /
          (LAYER_HEIGHT : ℝ)) : ℝ) * (LAYER_HEIGHT : ℝ)) = 1.2
    rw [htan45, hLH]
    rw [show ((0.6 : ℝ) + 2 * ((0.3 : ℝ) * 1)) / (3/20) = ((8 : ℤ) : ℝ) by norm_num]
    rw [bankersRound_intCast]
    rw [show ((8 : ℤ) : ℝ) * (3/20) = 6/5 by norm_num]
    rw [roundDec_eq_self 120 (by norm_num)]
    norm_num
  have hspec : specTaperLarge (0.6 : ℝ) 45 = 1.8 := by
    show roundDec 2
      ((bankersRound (((0.6 : ℝ) + 2 * ((0.6 : ℝ) * Real.tan ((45 : ℝ) * Real.pi / 180))) /
          (LAYER_HEIGHT : ℝ)) : ℝ) * (LAYER_HEIGHT : ℝ)) = 1.8
    rw [htan45, hLH]
    rw [show ((0.6 : ℝ) + 2 * ((0.6 : ℝ) * 1)) / (3/20) = ((12 : ℤ) : ℝ) by norm_num]
    rw [bankersRound_intCast]
    rw [show ((12 : ℤ) : ℝ) * (3/20) = 9/5 by norm_num]
    rw [roundDec_eq_self 180 (by norm_num)]
    norm_num
  refine ⟨hcode, hspec, ?_⟩
  rw [hcode, hspec]
  norm_num

/-- C3 amended: the 3D taper derivation snaps per axis, and the Z large
height follows the claimed contract on its own small height, but the Y
delta is computed from the Z small height: the solver returns exactly
`(spec contract applied to (z_small, θz),
snap(y_small + 2 * (z_small * tan θy)))`; concretely, at
`θz = θy = 45°`, `z_small = 0.3`, `y_small = 0.6` the Z component is
`specTaperLarge 0.3 45 = 0.9` while the Y component is `1.2`, not
`specTaperLarge 0.6 45`. -/
theorem c3_taper_per_axis_amended :
    (∀ θz θy zs ys : ℝ,
      dovetail3DLargeDims θz θy zs ys =
        (specTaperLarge zs θz,
         roundDec 2
           ((bankersRound ((ys + 2 * (zs * Real.tan (θy * Real.pi / 180))) /
               (LAYER_HEIGHT : ℝ)) : ℝ) * (LAYER_HEIGHT : ℝ)))) ∧
    specTaperLarge (0.3 : ℝ) 45 = 0.9 ∧
    (dovetail3DLargeDims 45 45 (0.3 : ℝ) 0.6).1 = specTaperLarge (0.3 : ℝ) 45 ∧
    (dovetail3DLargeDims 45 45 (0.3 : ℝ) 0.6).2 = 1.2 := by
  have hLH : ((LAYER_HEIGHT : ℚ) : ℝ) = 3/20 := by norm_num [LAYER_HEIGHT]
  have htan45 : Real.tan ((45 : ℝ) * Real.pi / 180) = 1 := by
    rw [show (45 : ℝ) * Real.pi / 180 = Real.pi / 4 by ring, Real.tan_pi_div_four]
  have hz : specTaperLarge (0.3 : ℝ) 45 = 0.9 := by
    show roundDec 2
      ((bankersRound (((0.3 : ℝ) + 2 * ((0.3 : ℝ) * Real.tan ((45 : ℝ) * Real.pi / 180))) /
          (LAYER_HEIGHT : ℝ)) : ℝ) * (LAYER_HEIGHT : ℝ)) = 0.9
    rw [htan45, hLH]
    rw [show ((0.3 : ℝ) + 2 * ((0.3 : ℝ) * 1)) / (3/20) = ((6 : ℤ) : ℝ) by norm_num]
    rw [bankersRound_intCast]
    rw [show ((6 : ℤ) : ℝ) * (3/20) = 9/10 by norm_num]
    rw [roundDec_eq_self 90 (by norm_num)]
    norm_num
  have hy : (dovetail3DLargeDims 45 45 (0.3 : ℝ) 0.6).2 = 1.2 := by
    show roundDec 2
      ((bankersRound (((0.6 : ℝ) + 2 * ((0.3 : ℝ) * Real.tan ((45 : ℝ) * Real.pi / 180))) /
          (LAYER_HEIGHT : ℝ)) : ℝ) * (LAYER_HEIGHT : ℝ)) = 1.2
    rw [htan45, hLH]
    rw [show ((0.6 : ℝ) + 2 * ((0.3 : ℝ) * 1)) / (3/20) = ((8 : ℤ) : ℝ) by norm_num]
    rw [bankersRound_intCast]
    rw [show ((8 : ℤ) : ℝ) * (3/20) = 6/5 by norm_num]
    rw [roundDec_eq_self 120 (by norm_num)]
    norm_num
  exact ⟨fun θz θy zs ys => rfl, hz, rfl, hy⟩

/-- C9 helper: once the cut-plane coordinate is known, `get_split_face` is
the four-way min/max match over the within-tolerance selection. -/
theorem get_split_face_eq (verts : List Point) (px : ℚ)
    (hpx : listMax (verts.map (fun v => v.1)) = some px) :
    get_split_face verts =
      match listMin ((verts.filter (fun v => |v.1 - px| < splitTol)).map (fun v => v.2.1)),
            listMax ((verts.filter (fun v => |v.1 - px| < splitTol)).map (fun v => v.2.1)),
            listMin ((verts.filter (fun v => |v.1 - px| < splitTol)).map (fun v => v.2.2)),
            listMax ((verts.filter (fun v => |v.1 - px| < splitTol)).map (fun v => v.2.2)) with
      | some min_y, some max_y, some min_z, some max_z =>
        some (max_y - min_y, max_z - min_z, (min_y, max_y, min_z, max_z))
      | _, _, _, _ => none := by
  unfold get_split_face
  rw [hpx]

/-- C9: with the cut-plane coordinate taken as the maximum vertex X, the
analyzer fails (raises on an empty numpy array, `none` here) exactly when
no vertex lies within the `1e-5` tolerance of it; on success the returned
width and height are `max_y - min_y` and `max_z - min_z`, the four bounds
are componentwise bounds of the Y/Z projections of exactly the
within-tolerance vertices, and each bound is attained by one of them. -/
theorem c9_cut_face_analyzer (verts : List Point) (px : ℚ)
    (hpx : listMax (verts.map (fun v => v.1)) = some px) :
    (get_split_face verts = none ↔
      verts.filter (fun v => |v.1 - px| < splitTol) = []) ∧
    (∀ w h my My mz Mz,
      get_split_face verts = some (w, h, (my, My, mz, Mz)) →
      w = My - my ∧ h = Mz - mz ∧
      (∀ v ∈ verts, |v.1 - px| < splitTol →
        my ≤ v.2.1 ∧ v.2.1 ≤ My ∧ mz ≤ v.2.2 ∧ v.2.2 ≤ Mz) ∧
      (∃ v ∈ verts, |v.1 - px| < splitTol ∧ v.2.1 = my) ∧
      (∃ v ∈ verts, |v.1 - px| < splitTol ∧ v.2.1 = My) ∧
      (∃ v ∈ verts, |v.1 - px| < splitTol ∧ v.2.2 = mz) ∧
      (∃ v ∈ verts, |v.1 - px| < splitTol ∧ v.2.2 = Mz)) := by
  have hred := get_split_face_eq verts px hpx
  rcases hnil : verts.filter (fun v => |v.1 - px| < splitTol) with _ | ⟨v0, rest⟩
  · rw [hnil] at hred
    simp only [List.map_nil] at hred
    have hresnone : get_split_face verts = none := by
      rw [hred]
      rfl
    constructor
    · exact ⟨fun _ => hnil, fun _ => hresnone⟩
    · intro w h my My mz Mz hcontra
      rw [hresnone] at hcontra
      exact absurd hcontra (by simp)
  · have hne : verts.filter (fun v => |v.1 - px| < splitTol) ≠ [] := by
      rw [hnil]
      exact List.cons_ne_nil v0 rest
    have hmapne : ∀ f : Point → ℚ,
        (verts.filter (fun v => |v.1 - px| < splitTol)).map f ≠ [] := by
      intro f hmap
      exact hne (List.map_eq_nil.mp hmap)
    obtain ⟨my0, hmy0⟩ := listMin_isSome_of_ne_nil (hmapne (fun v => v.2.1))
    obtain ⟨My0, hMy0⟩ := listMax_isSome_of_ne_nil (hmapne (fun v => v.2.1))
    obtain ⟨mz0, hmz0⟩ := listMin_isSome_of_ne_nil (hmapne (fun v => v.2.2))
    obtain ⟨Mz0, hMz0⟩ := listMax_isSome_of_ne_nil (hmapne (fun v => v.2.2))
    rw [hmy0, hMy0, hmz0, hMz0] at hred
    constructor
    · rw [hred]
      constructor
      · intro hcontra
        exact absurd hcontra (by simp)
      · intro hcontra
        exact absurd hcontra hne
    · intro w h my My mz Mz hsome
      rw [hred] at hsome
      have heq := Option.some.inj hsome
      obtain ⟨hw, hh, hmy, hMy, hmz, hMz⟩ : w = My0 - my0 ∧ h = Mz0 - mz0 ∧
          my = my0 ∧ My = My0 ∧ mz = mz0 ∧ Mz = Mz0 := by
        have h1 := congrArg Prod.fst heq
        have h2 := congrArg (fun t => t.2.1) heq
        have h3 := congrArg (fun t => t.2.2.1) heq
        have h4 := congrArg (fun t => t.2.2.2.1) heq
        have h5 := congrArg (fun t => t.2.2.2.2.1) heq
        have h6 := congrArg (fun t => t.2.2.2.2.2) heq
        simp only at h1 h2 h3 h4 h5 h6
        exact ⟨h1.symm, h2.symm, h3.symm, h4.symm, h5.symm, h6.symm⟩
      subst hmy
      subst hMy
      subst hmz
      subst hMz
      refine ⟨by rw [hw], by rw [hh], ?_, ?_, ?_, ?_, ?_⟩
      · intro v hv hvtol
        have hvsel : v ∈ verts.filter (fun v => |v.1 - px| < splitTol) := by
          rw [List.mem_filter]
          exact ⟨hv, by simpa using hvtol⟩
        refine ⟨?_, ?_, ?_, ?_⟩
        · exact listMin_le hmy0 _ (List.mem_map_of_mem (fun v => v.2.1) hvsel)
        · exact le_listMax hMy0 _ (List.mem_map_of_mem (fun v => v.2.1) hvsel)
        · exact listMin_le hmz0 _ (List.mem_map_of_mem (fun v => v.2.2) hvsel)
        · exact le_listMax hMz0 _ (List.mem_map_of_mem (fun v => v.2.2) hvsel)
      · obtain ⟨v, hvsel, hveq⟩ := List.mem_map.mp (listMin_mem hmy0)
        rw [List.mem_filter] at hvsel
        exact ⟨v, hvsel.1, by simpa using hvsel.2, hveq⟩
      · obtain ⟨v, hvsel, hveq⟩ := List.mem_map.mp (listMax_mem hMy0)
        rw [List.mem_filter] at hvsel
        exact ⟨v, hvsel.1, by simpa using hvsel.2, hveq⟩
      · obtain ⟨v, hvsel, hveq⟩ := List.mem_map.mp (listMin_mem hmz0)
        rw [List.mem_filter] at hvsel
        exact ⟨v, hvsel.1, by simpa using hvsel.2, hveq⟩
      · obtain ⟨v, hvsel, hveq⟩ := List.mem_map.mp (listMax_mem hMz0)
        rw [List.mem_filter] at hvsel
        exact ⟨v, hvsel.1, by simpa using hvsel.2, hveq⟩

/-- C9 witness: the analyzer facts for the two-vertex cut face
`[(0,0,0), (0,1,2)]` with cut-plane coordinate 0. -/
theorem c9_cut_face_analyzer_witness :
    (get_split_face ([((0:ℚ), 0, 0), ((0:ℚ), 1, 2)] : List Point) = none ↔
      ([((0:ℚ), 0, 0), ((0:ℚ), 1, 2)] : List Point).filter
        (fun v => |v.1 - 0| < splitTol) = []) ∧
    (∀ w h my My mz Mz,
      get_split_face ([((0:ℚ), 0, 0), ((0:ℚ), 1, 2)] : List Point) =
          some (w, h, (my, My, mz, Mz)) →
      w = My - my ∧ h = Mz - mz ∧
      (∀ v ∈ ([((0:ℚ), 0, 0), ((0:ℚ), 1, 2)] : List Point), |v.1 - 0| < splitTol →
        my ≤ v.2.1 ∧ v.2.1 ≤ My ∧ mz ≤ v.2.2 ∧ v.2.2 ≤ Mz) ∧
      (∃ v ∈ ([((0:ℚ), 0, 0), ((0:ℚ), 1, 2)] : List Point),
        |v.1 - 0| < splitTol ∧ v.2.1 = my) ∧
      (∃ v ∈ ([((0:ℚ), 0, 0), ((0:ℚ), 1, 2)] : List Point),
        |v.1 - 0| < splitTol ∧ v.2.1 = My) ∧
      (∃ v ∈ ([((0:ℚ), 0, 0), ((0:ℚ), 1, 2)] : List Point),
        |v.1 - 0| < splitTol ∧ v.2.2 = mz) ∧
      (∃ v ∈ ([((0:ℚ), 0, 0), ((0:ℚ), 1, 2)] : List Point),
        |v.1 - 0| < splitTol ∧ v.2.2 = Mz)) :=
  c9_cut_face_analyzer ([((0:ℚ), 0, 0), ((0:ℚ), 1, 2)] : List Point) 0
    (by simp [listMax])

end Claims

end CustomInterlock
